import Mathlib

/-!
# Bitfield decoder and floating-point classifier of the RV32 core

Shallow embedding of the inline decode helpers of
`src/riscv_core/riscv_private.h`.

A `uint32_t` is a natural number below `2 ^ 32`; an operation that can leave
that range in C (a left shift) is reduced modulo `2 ^ 32`.  An `int32_t` is an
integer, obtained from a `uint32_t` by the two's-complement cast `toInt32`;
`>>` on an `int32_t` is the arithmetic shift `Int.shiftRight`.
-/

namespace RiscvCore

/-! ## Machine words -/

/-- Truncation of a natural number to a `uint32_t`. -/
def u32 (x : Nat) : Nat := x % 2 ^ 32

/-- The cast `(int32_t)x` of a `uint32_t`: two's-complement reinterpretation. -/
def toInt32 (x : Nat) : Int :=
  if u32 x < 2 ^ 31 then (u32 x : Int) else (u32 x : Int) - 2 ^ 32

/-- The cast `(uint32_t)i` of an `int32_t`. -/
def ofInt32 (i : Int) : Nat := (i % 2 ^ 32).toNat

/-- The C truth value of a `uint32_t` used as a condition. -/
def truthy (x : Nat) : Bool := decide (x ≠ 0)

/-! ## CSR numbers (the ones the claims name) -/

def CSR_CYCLE : Nat := 0xC00

/-! ## Instruction decode masks -/

def INST_6_2 : Nat     := 0b00000000000000000000000001111100
def FR_OPCODE : Nat    := 0b00000000000000000000000001111111
def FR_RD : Nat        := 0b00000000000000000000111110000000
def FR_FUNCT3 : Nat    := 0b00000000000000000111000000000000
def FR_RS1 : Nat       := 0b00000000000011111000000000000000
def FR_RS2 : Nat       := 0b00000001111100000000000000000000
def FR_FUNCT7 : Nat    := 0b11111110000000000000000000000000
def FI_IMM_11_0 : Nat  := 0b11111111111100000000000000000000
def FS_IMM_4_0 : Nat   := 0b00000000000000000000111110000000
def FS_IMM_11_5 : Nat  := 0b11111110000000000000000000000000
def FB_IMM_11 : Nat    := 0b00000000000000000000000010000000
def FB_IMM_4_1 : Nat   := 0b00000000000000000000111100000000
def FB_IMM_10_5 : Nat  := 0b01111110000000000000000000000000
def FB_IMM_12 : Nat    := 0b10000000000000000000000000000000
def FU_IMM_31_12 : Nat := 0b11111111111111111111000000000000
def FJ_IMM_19_12 : Nat := 0b00000000000011111111000000000000
def FJ_IMM_11 : Nat    := 0b00000000000100000000000000000000
def FJ_IMM_10_1 : Nat  := 0b01111111111000000000000000000000
def FJ_IMM_20 : Nat    := 0b10000000000000000000000000000000
def FR4_FMT : Nat      := 0b00000110000000000000000000000000
def FR4_RS3 : Nat      := 0b11111000000000000000000000000000

/-! ## Float classification masks -/

def FMASK_SIGN : Nat := 0b10000000000000000000000000000000
def FMASK_EXPN : Nat := 0b01111111100000000000000000000000
def FMASK_FRAC : Nat := 0b00000000011111111111111111111111

/-! ## Field decoders -/

/-- Source: `dec_rd`, `(inst & FR_RD) >> 7`. -/
def dec_rd (inst : Nat) : Nat := (inst &&& FR_RD) >>> 7

/-- Source: `dec_rs1`, `(inst & FR_RS1) >> 15`. -/
def dec_rs1 (inst : Nat) : Nat := (inst &&& FR_RS1) >>> 15

/-- Source: `dec_rs2`, `(inst & FR_RS2) >> 20`. -/
def dec_rs2 (inst : Nat) : Nat := (inst &&& FR_RS2) >>> 20

/-- Source: `dec_funct3`, `(inst & FR_FUNCT3) >> 12`. -/
def dec_funct3 (inst : Nat) : Nat := (inst &&& FR_FUNCT3) >>> 12

/-- Source: `dec_funct7`, `(inst & FR_FUNCT7) >> 25`. -/
def dec_funct7 (inst : Nat) : Nat := (inst &&& FR_FUNCT7) >>> 25

/-- Source: `dec_utype_imm`, `inst & FU_IMM_31_12`. -/
def dec_utype_imm (inst : Nat) : Nat := inst &&& FU_IMM_31_12

/-- Source: `dec_jtype_imm`.  The accumulator `dst` starts at zero and receives
the four immediate pieces; the result is `((int32_t)dst) >> 11`. -/
def dec_jtype_imm (inst : Nat) : Int :=
  let dst : Nat := 0
  let dst := dst ||| (inst &&& FJ_IMM_20)
  let dst := dst ||| u32 ((inst &&& FJ_IMM_19_12) <<< 11)
  let dst := dst ||| u32 ((inst &&& FJ_IMM_11) <<< 2)
  let dst := dst ||| ((inst &&& FJ_IMM_10_1) >>> 9)
  (toInt32 dst) >>> (11 : Nat)

/-- Source: `dec_itype_imm`, `((int32_t)(inst & FI_IMM_11_0)) >> 20`. -/
def dec_itype_imm (inst : Nat) : Int := (toInt32 (inst &&& FI_IMM_11_0)) >>> (20 : Nat)

/-- Source: `dec_r4type_fmt`, `(inst & FR4_FMT) >> 25`. -/
def dec_r4type_fmt (inst : Nat) : Nat := (inst &&& FR4_FMT) >>> 25

/-- Source: `dec_r4type_rs3`, `(inst & FR4_RS3) >> 27`. -/
def dec_r4type_rs3 (inst : Nat) : Nat := (inst &&& FR4_RS3) >>> 27

/-- Source: `dec_csr`, `((uint32_t)(inst & FI_IMM_11_0)) >> 20`. -/
def dec_csr (inst : Nat) : Nat := (u32 (inst &&& FI_IMM_11_0)) >>> 20

/-- Source: `dec_btype_imm`; the result is `((int32_t)dst) >> 19`. -/
def dec_btype_imm (inst : Nat) : Int :=
  let dst : Nat := 0
  let dst := dst ||| (inst &&& FB_IMM_12)
  let dst := dst ||| u32 ((inst &&& FB_IMM_11) <<< 23)
  let dst := dst ||| ((inst &&& FB_IMM_10_5) >>> 1)
  let dst := dst ||| u32 ((inst &&& FB_IMM_4_1) <<< 12)
  (toInt32 dst) >>> (19 : Nat)

/-- Source: `dec_stype_imm`; the result is `((int32_t)dst) >> 20`. -/
def dec_stype_imm (inst : Nat) : Int :=
  let dst : Nat := 0
  let dst := dst ||| (inst &&& FS_IMM_11_5)
  let dst := dst ||| u32 ((inst &&& FS_IMM_4_0) <<< 13)
  (toInt32 dst) >>> (20 : Nat)

/-- The cast `(int16_t)x`: the low 16 bits read as two's complement. -/
def toInt16 (x : Nat) : Int :=
  if x % 2 ^ 16 < 2 ^ 15 then (x % 2 ^ 16 : Nat) else ((x % 2 ^ 16 : Nat) : Int) - 2 ^ 16

/-- The cast `(int8_t)x`: the low 8 bits read as two's complement. -/
def toInt8 (x : Nat) : Int :=
  if x % 2 ^ 8 < 2 ^ 7 then (x % 2 ^ 8 : Nat) else ((x % 2 ^ 8 : Nat) : Int) - 2 ^ 8

/-- Source: `sign_extend_h`, `(int32_t)((int16_t)x)` returned as `uint32_t`. -/
def sign_extend_h (x : Nat) : Nat := ofInt32 (toInt16 x)

/-- Source: `sign_extend_b`, `(int32_t)((int8_t)x)` returned as `uint32_t`. -/
def sign_extend_b (x : Nat) : Nat := ofInt32 (toInt8 x)

/-! ## Floating-point classifier -/

/-- Source: `calc_fclass`.  Each line ors one category bit into `out` when its
condition holds; the conditions and constants are those of the source. -/
def calc_fclass (f : Nat) : Nat :=
  let sign := f &&& FMASK_SIGN
  let expn := f &&& FMASK_EXPN
  let frac := f &&& FMASK_FRAC
  let out : Nat := 0
  -- 0x001    rs1 is -INF
  let out := out ||| (if f = 0xff800000 then 0x001 else 0)
  -- 0x002    rs1 is negative normal
  let out := out ||| (if truthy expn && decide (expn < 0x78000000) && truthy sign then 0x002 else 0)
  -- 0x004    rs1 is negative subnormal
  let out := out ||| (if !truthy expn && truthy frac && truthy sign then 0x004 else 0)
  -- 0x008    rs1 is -0
  let out := out ||| (if f = 0x80000000 then 0x008 else 0)
  -- 0x010    rs1 is +0
  let out := out ||| (if f = 0x00000000 then 0x010 else 0)
  -- 0x020    rs1 is positive subnormal
  let out := out ||| (if !truthy expn && truthy frac && !truthy sign then 0x020 else 0)
  -- 0x040    rs1 is positive normal
  let out := out ||| (if truthy expn && decide (expn < 0x78000000) && !truthy sign then 0x040 else 0)
  -- 0x080    rs1 is +INF
  let out := out ||| (if f = 0x7f800000 then 0x080 else 0)
  -- 0x100    rs1 is a signaling NaN
  let out := out ||| (if decide (expn = FMASK_EXPN) && decide (frac ≤ 0x7ff) && truthy frac then 0x100 else 0)
  -- 0x200    rs1 is a quiet NaN
  let out := out ||| (if decide (expn = FMASK_EXPN) && decide (frac ≥ 0x800) then 0x200 else 0)
  out

/-! ## Specification-side vocabulary -/

/-- Spec side: the `n`-bit field of a word starting at bit `lo`. -/
def wordField (w lo n : Nat) : Nat := w / 2 ^ lo % 2 ^ n

/-- Spec side: the `n`-bit field starting at bit `lo` of the two's-complement
representation of an integer. -/
def intField (v : Int) (lo n : Nat) : Int := v / 2 ^ lo % 2 ^ n

/-- Spec side: the R-type word built from its six fields,
`opcode | rd<<7 | funct3<<12 | rs1<<15 | rs2<<20 | funct7<<25`. -/
def enc_rtype (opcode rd funct3 rs1 rs2 funct7 : Nat) : Nat :=
  opcode ||| (rd <<< 7) ||| (funct3 <<< 12) ||| (rs1 <<< 15) ||| (rs2 <<< 20) ||| (funct7 <<< 25)

/-- Spec side: the value of an `n`-bit field read as a two's-complement number. -/
def signExtend (n x : Nat) : Int :=
  if x % 2 ^ n < 2 ^ (n - 1) then ((x % 2 ^ n : Nat) : Int) else ((x % 2 ^ n : Nat) : Int) - 2 ^ n

/-- Decision table over the sign, exponent and fraction fields; `calc_fclass`
is proved equal to it on every 32-bit pattern (`calc_fclass_eq_table`). -/
def fclass_table (s e m : Nat) : Nat :=
  if e = 0 then
    if m = 0 then (if s = 0 then 0x010 else 0x008) else (if s = 0 then 0x020 else 0x004)
  else if e < 240 then (if s = 0 then 0x040 else 0x002)
  else if e < 255 then 0
  else if m = 0 then (if s = 0 then 0x080 else 0x001)
  else if m ≤ 0x7ff then 0x100 else 0x200

/-- Spec side: a word with `fmt` at bits 26:25 and `rs3` at bits 31:27 over the
25 low bits `low`. -/
def enc_r4type (low fmt rs3 : Nat) : Nat := low ||| (fmt <<< 25) ||| (rs3 <<< 27)

/-! ## Bit-level lemmas -/

/-- Masking with a run of `n` ones starting at bit `lo` keeps that field in place. -/
theorem and_field (w m lo n : Nat) (hm : m = (2 ^ n - 1) <<< lo) :
    w &&& m = wordField w lo n * 2 ^ lo := by
  subst hm
  unfold wordField
  rw [← Nat.shiftLeft_eq, ← Nat.and_pow_two_sub_one_eq_mod, ← Nat.shiftRight_eq_div_pow]
  apply Nat.eq_of_testBit_eq
  intro i
  simp only [Nat.testBit_and, Nat.testBit_shiftLeft, Nat.testBit_shiftRight,
    Nat.testBit_two_pow_sub_one]
  by_cases h : lo ≤ i
  · simp [h, Nat.add_sub_cancel' h]
  · simp [h]

/-- Or-ing a value below `2 ^ k` onto a multiple of `2 ^ k` is addition. -/
theorem or_high_low (a b k : Nat) (hb : b < 2 ^ k) : a * 2 ^ k ||| b = a * 2 ^ k + b := by
  rw [Nat.mul_comm, Nat.mul_add_lt_is_or hb]

/-- Or-ing a multiple of `2 ^ k` onto a value below `2 ^ k` is addition. -/
theorem or_low_high (a b k : Nat) (ha : a < 2 ^ k) : a ||| b * 2 ^ k = a + b * 2 ^ k := by
  rw [Nat.lor_comm, or_high_low b a k ha, Nat.add_comm]

/-- Or of two numbers separated at bit `k`, the left one given as a multiple. -/
theorem or_split (x y k : Nat) (hx : x % 2 ^ k = 0) (hy : y < 2 ^ k) : x ||| y = x + y := by
  have h := or_high_low (x / 2 ^ k) y k hy
  have e : x / 2 ^ k * 2 ^ k = x := by
    have := Nat.div_add_mod x (2 ^ k)
    rw [hx, Nat.add_zero, Nat.mul_comm] at this
    exact this
  rw [e] at h
  exact h

/-! ## Arithmetic normal forms of the decoders -/

theorem dec_rd_eq (w : Nat) : dec_rd w = wordField w 7 5 := by
  unfold dec_rd
  rw [and_field w FR_RD 7 5 rfl, Nat.shiftRight_eq_div_pow]
  exact Nat.mul_div_cancel _ (by norm_num)

theorem dec_rs1_eq (w : Nat) : dec_rs1 w = wordField w 15 5 := by
  unfold dec_rs1
  rw [and_field w FR_RS1 15 5 rfl, Nat.shiftRight_eq_div_pow]
  exact Nat.mul_div_cancel _ (by norm_num)

theorem dec_rs2_eq (w : Nat) : dec_rs2 w = wordField w 20 5 := by
  unfold dec_rs2
  rw [and_field w FR_RS2 20 5 rfl, Nat.shiftRight_eq_div_pow]
  exact Nat.mul_div_cancel _ (by norm_num)

theorem dec_funct3_eq (w : Nat) : dec_funct3 w = wordField w 12 3 := by
  unfold dec_funct3
  rw [and_field w FR_FUNCT3 12 3 rfl, Nat.shiftRight_eq_div_pow]
  exact Nat.mul_div_cancel _ (by norm_num)

theorem dec_funct7_eq (w : Nat) : dec_funct7 w = wordField w 25 7 := by
  unfold dec_funct7
  rw [and_field w FR_FUNCT7 25 7 rfl, Nat.shiftRight_eq_div_pow]
  exact Nat.mul_div_cancel _ (by norm_num)

theorem dec_utype_imm_eq (w : Nat) : dec_utype_imm w = wordField w 12 20 * 2 ^ 12 := by
  unfold dec_utype_imm
  rw [and_field w FU_IMM_31_12 12 20 rfl]

theorem dec_csr_eq (w : Nat) : dec_csr w = wordField w 20 12 := by
  unfold dec_csr u32
  rw [and_field w FI_IMM_11_0 20 12 rfl, Nat.shiftRight_eq_div_pow]
  unfold wordField
  omega

/-- The cast to `int32_t` of a value already in `uint32_t` range. -/
theorem toInt32_field (x : Nat) (hx : x < 2 ^ 32) :
    toInt32 x = if x < 2 ^ 31 then (x : Int) else (x : Int) - 2 ^ 32 := by
  unfold toInt32 u32
  rw [Nat.mod_eq_of_lt hx]

theorem dec_itype_imm_eq (w : Nat) :
    dec_itype_imm w = signExtend 12 (wordField w 20 12) := by
  unfold dec_itype_imm
  rw [and_field w FI_IMM_11_0 20 12 rfl, Int.shiftRight_eq_div_pow]
  have hf : wordField w 20 12 < 2 ^ 12 := Nat.mod_lt _ (by norm_num)
  generalize wordField w 20 12 = x at hf ⊢
  rw [toInt32_field _ (by omega)]
  unfold signExtend
  split <;> split <;> omega

theorem dec_jtype_imm_eq (w : Nat) :
    dec_jtype_imm w = signExtend 21 (wordField w 31 1 * 2 ^ 20 + wordField w 12 8 * 2 ^ 12
      + wordField w 20 1 * 2 ^ 11 + wordField w 21 10 * 2 ^ 1) := by
  have h31 : wordField w 31 1 < 2 ^ 1 := Nat.mod_lt _ (by norm_num)
  have h19 : wordField w 12 8 < 2 ^ 8 := Nat.mod_lt _ (by norm_num)
  have h11 : wordField w 20 1 < 2 ^ 1 := Nat.mod_lt _ (by norm_num)
  have h10 : wordField w 21 10 < 2 ^ 10 := Nat.mod_lt _ (by norm_num)
  have e1 : w &&& FJ_IMM_20 = wordField w 31 1 * 2 ^ 31 := and_field w FJ_IMM_20 31 1 rfl
  have e2 : u32 ((w &&& FJ_IMM_19_12) <<< 11) = wordField w 12 8 * 2 ^ 23 := by
    rw [and_field w FJ_IMM_19_12 12 8 rfl, Nat.shiftLeft_eq]
    unfold u32
    omega
  have e3 : u32 ((w &&& FJ_IMM_11) <<< 2) = wordField w 20 1 * 2 ^ 22 := by
    rw [and_field w FJ_IMM_11 20 1 rfl, Nat.shiftLeft_eq]
    unfold u32
    omega
  have e4 : (w &&& FJ_IMM_10_1) >>> 9 = wordField w 21 10 * 2 ^ 12 := by
    rw [and_field w FJ_IMM_10_1 21 10 rfl, Nat.shiftRight_eq_div_pow]
    omega
  unfold dec_jtype_imm
  simp only [Nat.zero_or]
  rw [e1, e2, e3, e4]
  generalize wordField w 31 1 = a at h31 ⊢
  generalize wordField w 12 8 = b at h19 ⊢
  generalize wordField w 20 1 = c at h11 ⊢
  generalize wordField w 21 10 = d at h10 ⊢
  rw [or_split (a * 2 ^ 31) (b * 2 ^ 23) 31 (by omega) (by omega),
    or_split (a * 2 ^ 31 + b * 2 ^ 23) (c * 2 ^ 22) 23 (by omega) (by omega),
    or_split (a * 2 ^ 31 + b * 2 ^ 23 + c * 2 ^ 22) (d * 2 ^ 12) 22 (by omega) (by omega),
    toInt32_field _ (by omega), Int.shiftRight_eq_div_pow]
  unfold signExtend
  split <;> split <;> omega

theorem dec_btype_imm_eq (w : Nat) :
    dec_btype_imm w = signExtend 13 (wordField w 31 1 * 2 ^ 12 + wordField w 7 1 * 2 ^ 11
      + wordField w 25 6 * 2 ^ 5 + wordField w 8 4 * 2 ^ 1) := by
  have h12 : wordField w 31 1 < 2 ^ 1 := Nat.mod_lt _ (by norm_num)
  have h11 : wordField w 7 1 < 2 ^ 1 := Nat.mod_lt _ (by norm_num)
  have h10 : wordField w 25 6 < 2 ^ 6 := Nat.mod_lt _ (by norm_num)
  have h4 : wordField w 8 4 < 2 ^ 4 := Nat.mod_lt _ (by norm_num)
  have e1 : w &&& FB_IMM_12 = wordField w 31 1 * 2 ^ 31 := and_field w FB_IMM_12 31 1 rfl
  have e2 : u32 ((w &&& FB_IMM_11) <<< 23) = wordField w 7 1 * 2 ^ 30 := by
    rw [and_field w FB_IMM_11 7 1 rfl, Nat.shiftLeft_eq]
    unfold u32
    omega
  have e3 : (w &&& FB_IMM_10_5) >>> 1 = wordField w 25 6 * 2 ^ 24 := by
    rw [and_field w FB_IMM_10_5 25 6 rfl, Nat.shiftRight_eq_div_pow]
    omega
  have e4 : u32 ((w &&& FB_IMM_4_1) <<< 12) = wordField w 8 4 * 2 ^ 20 := by
    rw [and_field w FB_IMM_4_1 8 4 rfl, Nat.shiftLeft_eq]
    unfold u32
    omega
  unfold dec_btype_imm
  simp only [Nat.zero_or]
  rw [e1, e2, e3, e4]
  generalize wordField w 31 1 = a at h12 ⊢
  generalize wordField w 7 1 = b at h11 ⊢
  generalize wordField w 25 6 = c at h10 ⊢
  generalize wordField w 8 4 = d at h4 ⊢
  rw [or_split (a * 2 ^ 31) (b * 2 ^ 30) 31 (by omega) (by omega),
    or_split (a * 2 ^ 31 + b * 2 ^ 30) (c * 2 ^ 24) 30 (by omega) (by omega),
    or_split (a * 2 ^ 31 + b * 2 ^ 30 + c * 2 ^ 24) (d * 2 ^ 20) 24 (by omega) (by omega),
    toInt32_field _ (by omega), Int.shiftRight_eq_div_pow]
  unfold signExtend
  split <;> split <;> omega

theorem dec_stype_imm_eq (w : Nat) :
    dec_stype_imm w = signExtend 12 (wordField w 25 7 * 2 ^ 5 + wordField w 7 5) := by
  have h11 : wordField w 25 7 < 2 ^ 7 := Nat.mod_lt _ (by norm_num)
  have h4 : wordField w 7 5 < 2 ^ 5 := Nat.mod_lt _ (by norm_num)
  have e1 : w &&& FS_IMM_11_5 = wordField w 25 7 * 2 ^ 25 := and_field w FS_IMM_11_5 25 7 rfl
  have e2 : u32 ((w &&& FS_IMM_4_0) <<< 13) = wordField w 7 5 * 2 ^ 20 := by
    rw [and_field w FS_IMM_4_0 7 5 rfl, Nat.shiftLeft_eq]
    unfold u32
    omega
  unfold dec_stype_imm
  simp only [Nat.zero_or]
  rw [e1, e2]
  generalize wordField w 25 7 = a at h11 ⊢
  generalize wordField w 7 5 = b at h4 ⊢
  rw [or_split (a * 2 ^ 25) (b * 2 ^ 20) 25 (by omega) (by omega),
    toInt32_field _ (by omega), Int.shiftRight_eq_div_pow]
  unfold signExtend
  split <;> split <;> omega

/-! ## I-type immediate -/

/-- C1: for every 32-bit instruction word `w`, `dec_itype_imm w` is the 12-bit
field `w[31:20]` read as a two's-complement number (sign-extended); hence any
word whose bits 31:20 hold `v mod 4096`, for `-2048 ≤ v ≤ 2047`, decodes to `v`
whatever its bits 19:0 are.  The all-ones field `0xFFF00000` gives `-1` and the
word with only immediate bit 10 set, `0x40000000`, gives `1024`. -/
theorem dec_itype_imm_sign_extends (w : Nat) (hw : w < 2 ^ 32) :
    dec_itype_imm w = signExtend 12 (w / 2 ^ 20) ∧
    (∀ v : Int, -2048 ≤ v → v ≤ 2047 → ((w / 2 ^ 20 : Nat) : Int) = v % 4096 →
      dec_itype_imm w = v) ∧
    dec_itype_imm 0xFFF00000 = -1 ∧ dec_itype_imm 0x40000000 = 1024 := by
  have hf : wordField w 20 12 = w / 2 ^ 20 := by
    unfold wordField
    omega
  have key : dec_itype_imm w = signExtend 12 (w / 2 ^ 20) := by
    rw [dec_itype_imm_eq, hf]
  refine ⟨key, ?_, by decide, by decide⟩
  intro v hlo hhi hv
  rw [key]
  unfold signExtend
  split <;> omega

theorem dec_itype_imm_sign_extends_witness :
    dec_itype_imm 0x80000ABC = signExtend 12 (0x80000ABC / 2 ^ 20) ∧
    dec_itype_imm 0x80000ABC = -2048 :=
  ⟨(dec_itype_imm_sign_extends 0x80000ABC (by decide)).1,
   (dec_itype_imm_sign_extends 0x80000ABC (by decide)).2.1 (-2048) (by decide) (by decide)
     (by decide)⟩

/-! ## J-type immediate -/

/-- C2: J-type round trip.  For every even `v` with `-2^20 ≤ v ≤ 2^20 - 2` and
every 32-bit word `w` carrying `v` in the canonical J-type layout (bit 31 is
`v` bit 20, bits 30:21 are `v` bits 10:1, bit 20 is `v` bit 11, bits 19:12 are
`v` bits 19:12, bits 11:0 arbitrary), `dec_jtype_imm w = v`. -/
theorem dec_jtype_imm_round_trip (v : Int) (w : Nat) (_hw : w < 2 ^ 32)
    (hev : v % 2 = 0) (hlo : -2 ^ 20 ≤ v) (hhi : v ≤ 2 ^ 20 - 2)
    (h20 : (wordField w 31 1 : Int) = intField v 20 1)
    (h10 : (wordField w 21 10 : Int) = intField v 1 10)
    (h11 : (wordField w 20 1 : Int) = intField v 11 1)
    (h19 : (wordField w 12 8 : Int) = intField v 12 8) :
    dec_jtype_imm w = v := by
  rw [dec_jtype_imm_eq]
  unfold intField at *
  have s1 : v % 2 ^ 21 = v / 2 ^ 20 % 2 ^ 1 * 2 ^ 20 + v % 2 ^ 20 := by omega
  have s2 : v % 2 ^ 20 = v / 2 ^ 12 % 2 ^ 8 * 2 ^ 12 + v % 2 ^ 12 := by omega
  have s3 : v % 2 ^ 12 = v / 2 ^ 11 % 2 ^ 1 * 2 ^ 11 + v % 2 ^ 11 := by omega
  have s4 : v % 2 ^ 11 = v / 2 ^ 1 % 2 ^ 10 * 2 ^ 1 + v % 2 := by omega
  rw [← h20] at s1
  rw [← h19] at s2
  rw [← h11] at s3
  rw [← h10] at s4
  generalize wordField w 31 1 = a at *
  generalize wordField w 12 8 = b at *
  generalize wordField w 20 1 = c at *
  generalize wordField w 21 10 = d at *
  unfold signExtend
  split <;> omega

theorem dec_jtype_imm_round_trip_witness : dec_jtype_imm 0xFFFFF06F = -2 :=
  dec_jtype_imm_round_trip (-2) 0xFFFFF06F (by decide) (by decide) (by decide) (by decide)
    (by decide) (by decide) (by decide) (by decide)

/-! ## B-type immediate -/

/-- C3: B-type round trip.  For every even `v` with `-4096 ≤ v ≤ 4094` and every
32-bit word `w` carrying `v` in the canonical B-type layout (bit 31 is `v` bit
12, bit 7 is `v` bit 11, bits 30:25 are `v` bits 10:5, bits 11:8 are `v` bits
4:1, all other bits arbitrary), `dec_btype_imm w = v`. -/
theorem dec_btype_imm_round_trip (v : Int) (w : Nat) (_hw : w < 2 ^ 32)
    (hev : v % 2 = 0) (hlo : -4096 ≤ v) (hhi : v ≤ 4094)
    (h12 : (wordField w 31 1 : Int) = intField v 12 1)
    (h11 : (wordField w 7 1 : Int) = intField v 11 1)
    (h10 : (wordField w 25 6 : Int) = intField v 5 6)
    (h4 : (wordField w 8 4 : Int) = intField v 1 4) :
    dec_btype_imm w = v := by
  rw [dec_btype_imm_eq]
  unfold intField at *
  have s1 : v % 2 ^ 13 = v / 2 ^ 12 % 2 ^ 1 * 2 ^ 12 + v % 2 ^ 12 := by omega
  have s2 : v % 2 ^ 12 = v / 2 ^ 11 % 2 ^ 1 * 2 ^ 11 + v % 2 ^ 11 := by omega
  have s3 : v % 2 ^ 11 = v / 2 ^ 5 % 2 ^ 6 * 2 ^ 5 + v % 2 ^ 5 := by omega
  have s4 : v % 2 ^ 5 = v / 2 ^ 1 % 2 ^ 4 * 2 ^ 1 + v % 2 := by omega
  rw [← h12] at s1
  rw [← h11] at s2
  rw [← h10] at s3
  rw [← h4] at s4
  generalize wordField w 31 1 = a at *
  generalize wordField w 7 1 = b at *
  generalize wordField w 25 6 = c at *
  generalize wordField w 8 4 = d at *
  unfold signExtend
  split <;> omega

theorem dec_btype_imm_round_trip_witness : dec_btype_imm 0xFE000EE3 = -4 :=
  dec_btype_imm_round_trip (-4) 0xFE000EE3 (by decide) (by decide) (by decide) (by decide)
    (by decide) (by decide) (by decide) (by decide)

/-! ## S-type immediate -/

/-- C4: S-type round trip.  For every `v` with `-2048 ≤ v ≤ 2047` and every
32-bit word `w` carrying `v` in the canonical S-type layout (bits 31:25 are `v`
bits 11:5, bits 11:7 are `v` bits 4:0, all other bits arbitrary),
`dec_stype_imm w = v`. -/
theorem dec_stype_imm_round_trip (v : Int) (w : Nat) (_hw : w < 2 ^ 32)
    (hlo : -2048 ≤ v) (hhi : v ≤ 2047)
    (h11 : (wordField w 25 7 : Int) = intField v 5 7)
    (h4 : (wordField w 7 5 : Int) = intField v 0 5) :
    dec_stype_imm w = v := by
  rw [dec_stype_imm_eq]
  unfold signExtend
  unfold wordField intField at *
  split <;> omega

theorem dec_stype_imm_round_trip_witness : dec_stype_imm 0xFE000F23 = -2 :=
  dec_stype_imm_round_trip (-2) 0xFE000F23 (by decide) (by decide) (by decide)
    (by decide) (by decide)

/-! ## R-type fields -/

/-- C5: R-type field round trip.  For every `opcode < 128`, `rd < 32`,
`funct3 < 8`, `rs1 < 32`, `rs2 < 32` and `funct7 < 128`, the word
`opcode | rd<<7 | funct3<<12 | rs1<<15 | rs2<<20 | funct7<<25` is a 32-bit
word that decodes back to exactly `rd`, `funct3`, `rs1`, `rs2` and `funct7`;
the decoders read bits 11:7, 14:12, 19:15, 24:20 and 31:25. -/
theorem rtype_fields_round_trip (opcode rd funct3 rs1 rs2 funct7 : Nat)
    (hop : opcode < 128) (hrd : rd < 32) (hf3 : funct3 < 8) (hrs1 : rs1 < 32)
    (hrs2 : rs2 < 32) (hf7 : funct7 < 128) :
    enc_rtype opcode rd funct3 rs1 rs2 funct7 < 2 ^ 32 ∧
    dec_rd (enc_rtype opcode rd funct3 rs1 rs2 funct7) = rd ∧
    dec_funct3 (enc_rtype opcode rd funct3 rs1 rs2 funct7) = funct3 ∧
    dec_rs1 (enc_rtype opcode rd funct3 rs1 rs2 funct7) = rs1 ∧
    dec_rs2 (enc_rtype opcode rd funct3 rs1 rs2 funct7) = rs2 ∧
    dec_funct7 (enc_rtype opcode rd funct3 rs1 rs2 funct7) = funct7 ∧
    (∀ w, dec_rd w = wordField w 7 5 ∧ dec_funct3 w = wordField w 12 3 ∧
      dec_rs1 w = wordField w 15 5 ∧ dec_rs2 w = wordField w 20 5 ∧
      dec_funct7 w = wordField w 25 7) := by
  have hw : enc_rtype opcode rd funct3 rs1 rs2 funct7 = opcode + rd * 2 ^ 7 + funct3 * 2 ^ 12
      + rs1 * 2 ^ 15 + rs2 * 2 ^ 20 + funct7 * 2 ^ 25 := by
    unfold enc_rtype
    simp only [Nat.shiftLeft_eq]
    rw [or_low_high opcode rd 7 (by omega), or_low_high _ funct3 12 (by omega),
      or_low_high _ rs1 15 (by omega), or_low_high _ rs2 20 (by omega),
      or_low_high _ funct7 25 (by omega)]
  rw [dec_rd_eq, dec_funct3_eq, dec_rs1_eq, dec_rs2_eq, dec_funct7_eq, hw]
  refine ⟨by omega, ?_, ?_, ?_, ?_, ?_, ?_⟩
  · unfold wordField
    omega
  · unfold wordField
    omega
  · unfold wordField
    omega
  · unfold wordField
    omega
  · unfold wordField
    omega
  · intro w
    exact ⟨dec_rd_eq w, dec_funct3_eq w, dec_rs1_eq w, dec_rs2_eq w, dec_funct7_eq w⟩

theorem rtype_fields_round_trip_witness :
    enc_rtype 0x33 12 0 10 11 32 = 0x40B50633 ∧
    dec_rd 0x40B50633 = 12 ∧ dec_funct3 0x40B50633 = 0 ∧ dec_rs1 0x40B50633 = 10 ∧
      dec_rs2 0x40B50633 = 11 ∧ dec_funct7 0x40B50633 = 32 :=
  have h := rtype_fields_round_trip 0x33 12 0 10 11 32 (by decide) (by decide) (by decide)
    (by decide) (by decide) (by decide)
  ⟨by decide, h.2.1, h.2.2.1, h.2.2.2.1, h.2.2.2.2.1, h.2.2.2.2.2.1⟩

/-! ## U-type immediate -/

/-- C6: for every 32-bit word `w`, `dec_utype_imm w` has its low 12 bits zero
and agrees with `w` on bits 31:12: it equals `w - w mod 4096`, which is
`(w >> 12) << 12`, the field left in place rather than the 20-bit field value
`w >> 12`. -/
theorem dec_utype_imm_pre_shifted (w : Nat) (_hw : w < 2 ^ 32) :
    dec_utype_imm w % 4096 = 0 ∧ dec_utype_imm w / 4096 = w / 4096 ∧
    dec_utype_imm w = w - w % 4096 ∧ dec_utype_imm w = (w >>> 12) <<< 12 ∧
    u32 ((w >>> 12) <<< 12) = (w >>> 12) <<< 12 := by
  rw [dec_utype_imm_eq, Nat.shiftLeft_eq, Nat.shiftRight_eq_div_pow]
  unfold wordField u32
  refine ⟨by omega, by omega, by omega, by omega, by omega⟩

theorem dec_utype_imm_pre_shifted_witness :
    dec_utype_imm 0x12345FFF = 0x12345000 ∧ dec_utype_imm 0x12345FFF ≠ 0x12345 := by
  have h := (dec_utype_imm_pre_shifted 0x12345FFF (by decide)).2.2.1
  constructor
  · rw [h]
  · rw [h]
    decide

/-! ## CSR address field -/

/-- C7: for every 32-bit word `w`, `dec_csr w` is the zero-extended 12-bit
field `w[31:20]`: it equals `w >> 20`, lies in `0 .. 4095`, and is the low 12
bits of `dec_itype_imm w`; it is not negative even when bit 31 of `w` is set,
and a word whose field is `0xC00` decodes to `CSR_CYCLE` although its I-type
immediate is negative. -/
theorem dec_csr_zero_extends (w : Nat) (hw : w < 2 ^ 32) :
    dec_csr w = w >>> 20 ∧ 0 ≤ dec_csr w ∧ dec_csr w ≤ 4095 ∧
    (dec_csr w : Int) = dec_itype_imm w % 4096 ∧
    (w.testBit 31 = true → (0 : Int) ≤ (dec_csr w : Int) ∧ dec_itype_imm w < 0) ∧
    (w >>> 20 = 0xC00 → dec_csr w = CSR_CYCLE ∧ dec_itype_imm w < 0) := by
  have hbit : w.testBit 31 = true ↔ 2 ^ 31 ≤ w := by
    rw [Nat.testBit_to_div_mod, decide_eq_true_eq]
    omega
  rw [hbit, dec_csr_eq, dec_itype_imm_eq, Nat.shiftRight_eq_div_pow]
  unfold signExtend wordField CSR_CYCLE
  refine ⟨by omega, by omega, by omega, ?_, ?_, ?_⟩
  · split <;> omega
  · intro h
    split <;> omega
  · intro h
    split <;> omega

theorem dec_csr_zero_extends_witness :
    dec_csr 0xC0002573 = 0xC00 ∧ dec_csr 0xC0002573 = CSR_CYCLE :=
  have h := dec_csr_zero_extends 0xC0002573 (by decide)
  ⟨h.1, (h.2.2.2.2.2 (by decide)).1⟩

/-! ## Sign of the immediates -/

/-- C8: sign-extension law.  For every 32-bit word `w`, each of
`dec_itype_imm w`, `dec_btype_imm w`, `dec_jtype_imm w` and `dec_stype_imm w`
is negative if and only if bit 31 of `w` is set. -/
theorem imm_negative_iff_bit31 (w : Nat) (hw : w < 2 ^ 32) :
    (dec_itype_imm w < 0 ↔ w.testBit 31 = true) ∧
    (dec_btype_imm w < 0 ↔ w.testBit 31 = true) ∧
    (dec_jtype_imm w < 0 ↔ w.testBit 31 = true) ∧
    (dec_stype_imm w < 0 ↔ w.testBit 31 = true) := by
  have hbit : w.testBit 31 = true ↔ 2 ^ 31 ≤ w := by
    rw [Nat.testBit_to_div_mod, decide_eq_true_eq]
    omega
  rw [hbit, dec_itype_imm_eq, dec_btype_imm_eq, dec_jtype_imm_eq, dec_stype_imm_eq]
  have t31 : 2 ^ 31 ≤ w ↔ wordField w 31 1 = 1 := by
    unfold wordField
    omega
  have i11 : 2 ^ 31 ≤ w ↔ 2 ^ 11 ≤ wordField w 20 12 := by
    unfold wordField
    omega
  have s11 : 2 ^ 31 ≤ w ↔ 2 ^ 6 ≤ wordField w 25 7 := by
    unfold wordField
    omega
  have b31 : wordField w 31 1 < 2 ^ 1 := Nat.mod_lt _ (by norm_num)
  have bi : wordField w 20 12 < 2 ^ 12 := Nat.mod_lt _ (by norm_num)
  have b7 : wordField w 7 1 < 2 ^ 1 := Nat.mod_lt _ (by norm_num)
  have b25 : wordField w 25 6 < 2 ^ 6 := Nat.mod_lt _ (by norm_num)
  have b8 : wordField w 8 4 < 2 ^ 4 := Nat.mod_lt _ (by norm_num)
  have b12 : wordField w 12 8 < 2 ^ 8 := Nat.mod_lt _ (by norm_num)
  have b20 : wordField w 20 1 < 2 ^ 1 := Nat.mod_lt _ (by norm_num)
  have b21 : wordField w 21 10 < 2 ^ 10 := Nat.mod_lt _ (by norm_num)
  have bs : wordField w 25 7 < 2 ^ 7 := Nat.mod_lt _ (by norm_num)
  have bs5 : wordField w 7 5 < 2 ^ 5 := Nat.mod_lt _ (by norm_num)
  generalize wordField w 31 1 = a31 at *
  generalize wordField w 20 12 = ai at *
  generalize wordField w 7 1 = a7 at *
  generalize wordField w 25 6 = a25 at *
  generalize wordField w 8 4 = a8 at *
  generalize wordField w 12 8 = a12 at *
  generalize wordField w 20 1 = a20 at *
  generalize wordField w 21 10 = a21 at *
  generalize wordField w 25 7 = as at *
  generalize wordField w 7 5 = as5 at *
  unfold signExtend
  refine ⟨?_, ?_, ?_, ?_⟩ <;> split <;> omega

theorem imm_negative_iff_bit31_witness :
    dec_itype_imm 0x80000000 < 0 ∧ dec_btype_imm 0x80000000 < 0 ∧
    dec_jtype_imm 0x80000000 < 0 ∧ dec_stype_imm 0x80000000 < 0 ∧
    ¬ dec_itype_imm 0x7FFFFFFF < 0 :=
  have h := imm_negative_iff_bit31 0x80000000 (by decide)
  have h0 := imm_negative_iff_bit31 0x7FFFFFFF (by decide)
  ⟨h.1.2 (by decide), h.2.1.2 (by decide), h.2.2.1.2 (by decide), h.2.2.2.2 (by decide),
    fun hn => absurd (h0.1.1 hn) (by decide)⟩

/-! ## Floating-point classifier -/

/-- The three masked parts of a 32-bit float pattern and the pattern itself in
terms of its sign, exponent and fraction fields. -/
theorem fclass_parts (f : Nat) (hf : f < 2 ^ 32) :
    f &&& FMASK_SIGN = wordField f 31 1 * 2 ^ 31 ∧
    f &&& FMASK_EXPN = wordField f 23 8 * 2 ^ 23 ∧
    f &&& FMASK_FRAC = wordField f 0 23 ∧
    f = wordField f 31 1 * 2 ^ 31 + wordField f 23 8 * 2 ^ 23 + wordField f 0 23 := by
  refine ⟨and_field f FMASK_SIGN 31 1 rfl, and_field f FMASK_EXPN 23 8 rfl, ?_, ?_⟩
  · rw [and_field f FMASK_FRAC 0 23 rfl]
    omega
  · unfold wordField
    omega

/-- Every pattern whose exponent field lies in `240 .. 254` gets no category. -/
theorem calc_fclass_high_exponent (f : Nat) (hf : f < 2 ^ 32)
    (hlo : 240 ≤ wordField f 23 8) (hhi : wordField f 23 8 ≤ 254) : calc_fclass f = 0 := by
  obtain ⟨hs, he, hm, hsum⟩ := fclass_parts f hf
  have bs : wordField f 31 1 < 2 ^ 1 := Nat.mod_lt _ (by norm_num)
  have bm : wordField f 0 23 < 2 ^ 23 := Nat.mod_lt _ (by norm_num)
  unfold calc_fclass
  simp only [hs, he, hm, truthy]
  generalize wordField f 31 1 = s at *
  generalize wordField f 23 8 = e at *
  generalize wordField f 0 23 = m at *
  have c1 : ¬ f = 0xff800000 := by omega
  have c2 : ¬ e * 8388608 < 2013265920 := by omega
  have c3 : ¬ e = 0 := by omega
  have c4 : ¬ f = 0x80000000 := by omega
  have c5 : ¬ f = 0 := by omega
  have c6 : ¬ f = 0x7f800000 := by omega
  have c7 : ¬ e * 8388608 = 2139095040 := by omega
  simp [c1, c2, c3, c4, c5, c6, c7, FMASK_EXPN]

/-- Every NaN pattern whose fraction is at least `0x800` is reported quiet. -/
theorem calc_fclass_nan_frac_ge (f : Nat) (hf : f < 2 ^ 32)
    (hexp : wordField f 23 8 = 255) (hfrac : 0x800 ≤ wordField f 0 23) :
    calc_fclass f = 0x200 := by
  obtain ⟨hs, he, hm, hsum⟩ := fclass_parts f hf
  have bs : wordField f 31 1 < 2 ^ 1 := Nat.mod_lt _ (by norm_num)
  have bm : wordField f 0 23 < 2 ^ 23 := Nat.mod_lt _ (by norm_num)
  unfold calc_fclass
  simp only [hs, he, hm, truthy]
  generalize wordField f 31 1 = s at *
  generalize wordField f 23 8 = e at *
  generalize wordField f 0 23 = m at *
  have c1 : ¬ f = 0xff800000 := by omega
  have c2 : ¬ e * 8388608 < 2013265920 := by omega
  have c3 : ¬ e = 0 := by omega
  have c4 : ¬ f = 0x80000000 := by omega
  have c5 : ¬ f = 0 := by omega
  have c6 : ¬ f = 0x7f800000 := by omega
  have c7 : e * 8388608 = 2139095040 := by omega
  have c8 : ¬ m ≤ 0x7ff := by omega
  have c9 : m ≥ 0x800 := by omega
  simp [c1, c2, c3, c4, c5, c6, c7, c8, c9, FMASK_EXPN]

/-- On every 32-bit pattern `calc_fclass` is the decision table `fclass_table`
applied to the sign, exponent and fraction fields. -/
theorem calc_fclass_eq_table (f : Nat) (hf : f < 2 ^ 32) :
    calc_fclass f = fclass_table (wordField f 31 1) (wordField f 23 8) (wordField f 0 23) := by
  obtain ⟨hs, he, hm, hsum⟩ := fclass_parts f hf
  have bs : wordField f 31 1 < 2 ^ 1 := Nat.mod_lt _ (by norm_num)
  have be : wordField f 23 8 < 2 ^ 8 := Nat.mod_lt _ (by norm_num)
  have bm : wordField f 0 23 < 2 ^ 23 := Nat.mod_lt _ (by norm_num)
  unfold calc_fclass fclass_table
  simp only [hs, he, hm, truthy]
  simp only [FMASK_EXPN, Bool.and_eq_true, decide_eq_true_eq,
    Bool.not_eq_true', decide_eq_false_iff_not, ne_eq, Decidable.not_not, ge_iff_le]
  generalize wordField f 31 1 = s at *
  generalize wordField f 23 8 = e at *
  generalize wordField f 0 23 = m at *
  have hs01 : s = 0 ∨ s = 1 := by omega
  have hcase : e = 0 ∨ (1 ≤ e ∧ e < 240) ∨ (240 ≤ e ∧ e < 255) ∨ e = 255 := by omega
  have mcase : m = 0 ∨ (1 ≤ m ∧ m ≤ 0x7ff) ∨ 0x800 ≤ m := by omega
  rcases hs01 with h1 | h1 <;> rcases hcase with h2 | h2 | h2 | h2 <;>
    rcases mcase with h3 | h3 | h3 <;>
    simp (disch := omega) only [if_pos, if_neg] <;> rfl

/-- C9: `calc_fclass` does not set exactly one bit for every input.  The word
`0x78000000` (sign clear, exponent field 240, fraction zero: a positive normal
number) is classified as `0`, no category bit at all, because the two normal
tests compare the exponent with `0x78000000` rather than with the all-ones
exponent `0x7f800000`; the negative normal `0xF8000000` is lost the same way,
and so is every 32-bit pattern whose exponent field lies in `240 .. 254`. -/
theorem calc_fclass_high_exponent_unclassified :
    wordField 0x78000000 23 8 = 240 ∧ calc_fclass 0x78000000 = 0 ∧
    calc_fclass 0xF8000000 = 0 ∧ (∀ k, calc_fclass 0x78000000 ≠ 2 ^ k) ∧
    (∀ f, f < 2 ^ 32 → 240 ≤ wordField f 23 8 → wordField f 23 8 ≤ 254 →
      calc_fclass f = 0) := by
  refine ⟨by decide, by decide, by decide, ?_, calc_fclass_high_exponent⟩
  intro k
  have h : calc_fclass 0x78000000 = 0 := by decide
  rw [h]
  exact (Nat.pos_pow_of_pos k (by decide)).ne

/-- C10: `0x7f800800` has an all-ones exponent field, the nonzero fraction
`0x800` and fraction bit 22 clear, so it is a signaling NaN, yet
`calc_fclass` returns `0x200` (quiet NaN): the code separates the two NaN
classes at fraction `0x800` instead of at fraction bit 22 (`0x400000`), so
every NaN pattern with fraction at least `0x800` is reported quiet. -/
theorem calc_fclass_signaling_nan_reported_quiet :
    wordField 0x7f800800 23 8 = 0xFF ∧ wordField 0x7f800800 0 23 = 0x800 ∧
    Nat.testBit 0x7f800800 22 = false ∧ calc_fclass 0x7f800800 = 0x200 ∧
    calc_fclass 0x7f800800 ≠ 0x100 ∧
    (∀ f, f < 2 ^ 32 → wordField f 23 8 = 255 → 0x800 ≤ wordField f 0 23 →
      calc_fclass f = 0x200) := by
  refine ⟨by decide, by decide, by decide, by decide, by decide, calc_fclass_nan_frac_ge⟩

/-- The decision table only ever yields zero or one of the ten category bits. -/
theorem fclass_table_zero_or_bit (s e m : Nat) :
    fclass_table s e m = 0 ∨ ∃ k, k < 10 ∧ fclass_table s e m = 2 ^ k := by
  unfold fclass_table
  split_ifs
  · exact Or.inr ⟨4, by decide, rfl⟩
  · exact Or.inr ⟨3, by decide, rfl⟩
  · exact Or.inr ⟨5, by decide, rfl⟩
  · exact Or.inr ⟨2, by decide, rfl⟩
  · exact Or.inr ⟨6, by decide, rfl⟩
  · exact Or.inr ⟨1, by decide, rfl⟩
  · exact Or.inl rfl
  · exact Or.inr ⟨7, by decide, rfl⟩
  · exact Or.inr ⟨0, by decide, rfl⟩
  · exact Or.inr ⟨8, by decide, rfl⟩
  · exact Or.inr ⟨9, by decide, rfl⟩

/-- C11: normal-number classification fails on the code for the high
exponents.  `0x7f7fffff` (the largest finite float, exponent field 254, sign
clear) and `0xff7fffff` (its negative) are normal numbers but `calc_fclass`
returns `0` for both, not `0x040` and `0x002`.  For exponent fields `1 .. 239`
the code does what the claim says: `0x040` with the sign bit clear and `0x002`
with it set. -/
theorem calc_fclass_normal_only_below_240 :
    wordField 0x7f7fffff 23 8 = 254 ∧ calc_fclass 0x7f7fffff = 0 ∧
    wordField 0xff7fffff 23 8 = 254 ∧ calc_fclass 0xff7fffff = 0 ∧
    (∀ f, f < 2 ^ 32 → 1 ≤ wordField f 23 8 → wordField f 23 8 < 240 →
      calc_fclass f = if f.testBit 31 = true then 0x002 else 0x040) := by
  refine ⟨by decide, by decide, by decide, by decide, ?_⟩
  intro f hf hlo hhi
  have hbit : f.testBit 31 = true ↔ wordField f 31 1 ≠ 0 := by
    rw [Nat.testBit_to_div_mod, decide_eq_true_eq]
    unfold wordField
    omega
  rw [calc_fclass_eq_table f hf]
  unfold fclass_table
  rw [if_neg (by omega), if_pos hhi]
  by_cases h : wordField f 31 1 = 0
  · rw [if_pos h, if_neg (by rw [hbit]; exact not_not.mpr h)]
  · rw [if_neg h, if_pos (hbit.mpr h)]

/-- C12: canonical classifier inputs.  `calc_fclass 0xff800000 = 0x001`
(minus infinity, bit 0 only), `calc_fclass 0x7f800000 = 0x080` (plus
infinity, bit 7 only), `calc_fclass 0 = 0x010` (plus zero, bit 4 only) and
`calc_fclass 0x80000000 = 0x008` (minus zero, bit 3 only). -/
theorem calc_fclass_canonical_inputs :
    calc_fclass 0xff800000 = 0x001 ∧ calc_fclass 0x7f800000 = 0x080 ∧
    calc_fclass 0x00000000 = 0x010 ∧ calc_fclass 0x80000000 = 0x008 ∧
    (0x001 = 2 ^ 0 ∧ 0x080 = 2 ^ 7 ∧ 0x010 = 2 ^ 4 ∧ 0x008 = 2 ^ 3) := by
  refine ⟨by decide, by decide, by decide, by decide, by decide⟩

/-- C13: the classifier categories are mutually exclusive.  For every 32-bit
pattern `f`, `calc_fclass f` has at most one bit set (any two set bit positions
coincide) and fits the 10-bit mask: it is below `0x400` and has no bit in
common with `0xFFFFFC00`. -/
theorem calc_fclass_at_most_one_bit (f : Nat) (hf : f < 2 ^ 32) :
    (∀ i j, (calc_fclass f).testBit i = true → (calc_fclass f).testBit j = true → i = j) ∧
    calc_fclass f < 0x400 ∧ calc_fclass f &&& 0xFFFFFC00 = 0 := by
  rw [calc_fclass_eq_table f hf]
  rcases fclass_table_zero_or_bit (wordField f 31 1) (wordField f 23 8) (wordField f 0 23)
    with h | ⟨k, hk, h⟩
  · rw [h]
    refine ⟨?_, by decide, by decide⟩
    intro i j hi
    simp at hi
  · rw [h]
    refine ⟨?_, ?_, ?_⟩
    · intro i j hi hj
      rw [Nat.testBit_two_pow, decide_eq_true_eq] at hi hj
      omega
    · exact Nat.pow_lt_pow_right (by decide) hk
    · interval_cases k <;> decide

theorem calc_fclass_at_most_one_bit_witness :
    calc_fclass 0x3f800000 < 0x400 ∧ calc_fclass 0x3f800000 &&& 0xFFFFFC00 = 0 :=
  (calc_fclass_at_most_one_bit 0x3f800000 (by decide)).2

/-! ## R4-type fields -/

theorem dec_r4type_fmt_eq (w : Nat) : dec_r4type_fmt w = wordField w 25 2 := by
  unfold dec_r4type_fmt
  rw [and_field w FR4_FMT 25 2 rfl, Nat.shiftRight_eq_div_pow]
  exact Nat.mul_div_cancel _ (by norm_num)

theorem dec_r4type_rs3_eq (w : Nat) : dec_r4type_rs3 w = wordField w 27 5 := by
  unfold dec_r4type_rs3
  rw [and_field w FR4_RS3 27 5 rfl, Nat.shiftRight_eq_div_pow]
  exact Nat.mul_div_cancel _ (by norm_num)

/-- C14: R4-type fields.  For every 32-bit word `w`, `dec_r4type_fmt w` is the
2-bit field `w[26:25]` (below 4) and `dec_r4type_rs3 w` is the 5-bit field
`w[31:27]` (below 32); for every `fmt < 4` and `rs3 < 32`, a word holding `fmt`
at bits 26:25 and `rs3` at bits 31:27 decodes back to exactly `fmt` and `rs3`,
in particular the word built as `low | fmt<<25 | rs3<<27`; and
`dec_funct7 w = dec_r4type_rs3 w * 4 + dec_r4type_fmt w`. -/
theorem r4type_fields (w : Nat) (_hw : w < 2 ^ 32) :
    dec_r4type_fmt w = wordField w 25 2 ∧ dec_r4type_fmt w < 4 ∧
    dec_r4type_rs3 w = wordField w 27 5 ∧ dec_r4type_rs3 w < 32 ∧
    (∀ fmt rs3, fmt < 4 → rs3 < 32 → wordField w 25 2 = fmt → wordField w 27 5 = rs3 →
      dec_r4type_fmt w = fmt ∧ dec_r4type_rs3 w = rs3) ∧
    (∀ low fmt rs3, low < 2 ^ 25 → fmt < 4 → rs3 < 32 →
      enc_r4type low fmt rs3 < 2 ^ 32 ∧ dec_r4type_fmt (enc_r4type low fmt rs3) = fmt ∧
      dec_r4type_rs3 (enc_r4type low fmt rs3) = rs3) ∧
    dec_funct7 w = dec_r4type_rs3 w * 4 + dec_r4type_fmt w := by
  refine ⟨dec_r4type_fmt_eq w, ?_, dec_r4type_rs3_eq w, ?_, ?_, ?_, ?_⟩
  · rw [dec_r4type_fmt_eq]
    exact Nat.mod_lt _ (by norm_num)
  · rw [dec_r4type_rs3_eq]
    exact Nat.mod_lt _ (by norm_num)
  · intro fmt rs3 _ _ h1 h2
    rw [dec_r4type_fmt_eq, dec_r4type_rs3_eq]
    exact ⟨h1, h2⟩
  · intro low fmt rs3 hl hf hr
    have hw : enc_r4type low fmt rs3 = low + fmt * 2 ^ 25 + rs3 * 2 ^ 27 := by
      unfold enc_r4type
      simp only [Nat.shiftLeft_eq]
      rw [or_low_high low fmt 25 hl, or_low_high _ rs3 27 (by omega)]
    rw [dec_r4type_fmt_eq, dec_r4type_rs3_eq, hw]
    unfold wordField
    refine ⟨by omega, by omega, by omega⟩
  · rw [dec_funct7_eq, dec_r4type_fmt_eq, dec_r4type_rs3_eq]
    unfold wordField
    omega

theorem r4type_fields_witness :
    dec_r4type_fmt 0x5A20F043 = 1 ∧ dec_r4type_rs3 0x5A20F043 = 11 ∧
    dec_funct7 0x5A20F043 = dec_r4type_rs3 0x5A20F043 * 4 + dec_r4type_fmt 0x5A20F043 :=
  have h := r4type_fields 0x5A20F043 (by decide)
  ⟨(h.2.2.2.2.1 1 11 (by decide) (by decide) (by decide) (by decide)).1,
   (h.2.2.2.2.1 1 11 (by decide) (by decide) (by decide) (by decide)).2,
   h.2.2.2.2.2.2⟩

/-! ## Byte and halfword sign extension -/

theorem sign_extend_b_eq (x : Nat) :
    sign_extend_b x = if x % 2 ^ 8 < 2 ^ 7 then x % 2 ^ 8 else x % 2 ^ 8 + 0xFFFFFF00 := by
  unfold sign_extend_b ofInt32 toInt8
  split <;> omega

theorem sign_extend_h_eq (x : Nat) :
    sign_extend_h x = if x % 2 ^ 16 < 2 ^ 15 then x % 2 ^ 16 else x % 2 ^ 16 + 0xFFFF0000 := by
  unfold sign_extend_h ofInt32 toInt16
  split <;> omega

/-- C15: byte and halfword sign extension.  For every 32-bit `x`,
`sign_extend_b x` is a 32-bit value that depends only on the low 8 bits of `x`,
keeps them, and has each of its bits 31:8 equal to bit 7 of `x`;
`sign_extend_h x` depends only on the low 16 bits of `x`, keeps them, and has
each of its bits 31:16 equal to bit 15 of `x`.  `sign_extend_b 0x80 =
0xFFFFFF80`, `sign_extend_b 0x17F = 0x7F`, `sign_extend_h 0x8000 = 0xFFFF8000`. -/
theorem sign_extend_narrow (x : Nat) (_hx : x < 2 ^ 32) :
    (sign_extend_b x < 2 ^ 32 ∧
      (∀ y, y < 2 ^ 32 → y % 2 ^ 8 = x % 2 ^ 8 → sign_extend_b y = sign_extend_b x) ∧
      sign_extend_b x % 2 ^ 8 = x % 2 ^ 8 ∧
      (∀ i, 8 ≤ i → i < 32 → (sign_extend_b x).testBit i = x.testBit 7)) ∧
    (sign_extend_h x < 2 ^ 32 ∧
      (∀ y, y < 2 ^ 32 → y % 2 ^ 16 = x % 2 ^ 16 → sign_extend_h y = sign_extend_h x) ∧
      sign_extend_h x % 2 ^ 16 = x % 2 ^ 16 ∧
      (∀ i, 16 ≤ i → i < 32 → (sign_extend_h x).testBit i = x.testBit 15)) ∧
    sign_extend_b 0x80 = 0xFFFFFF80 ∧ sign_extend_b 0x17F = 0x7F ∧
    sign_extend_h 0x8000 = 0xFFFF8000 := by
  refine ⟨⟨?_, ?_, ?_, ?_⟩, ⟨?_, ?_, ?_, ?_⟩, by decide, by decide, by decide⟩
  · rw [sign_extend_b_eq]
    split <;> omega
  · intro y _ hy
    rw [sign_extend_b_eq, sign_extend_b_eq, hy]
  · rw [sign_extend_b_eq]
    split <;> omega
  · intro i h1 h2
    rw [sign_extend_b_eq]
    simp only [Nat.testBit_to_div_mod]
    congr 1
    apply propext
    interval_cases i <;> split <;> omega
  · rw [sign_extend_h_eq]
    split <;> omega
  · intro y _ hy
    rw [sign_extend_h_eq, sign_extend_h_eq, hy]
  · rw [sign_extend_h_eq]
    split <;> omega
  · intro i h1 h2
    rw [sign_extend_h_eq]
    simp only [Nat.testBit_to_div_mod]
    congr 1
    apply propext
    interval_cases i <;> split <;> omega

theorem sign_extend_narrow_witness :
    sign_extend_b 0xABCDEF80 = sign_extend_b 0x80 ∧ sign_extend_h 0x12348000 % 2 ^ 16 = 0x8000 :=
  have h := sign_extend_narrow 0x80 (by decide)
  have g := sign_extend_narrow 0x12348000 (by decide)
  ⟨h.1.2.1 0xABCDEF80 (by decide) (by decide), g.2.1.2.2.1⟩

/-! ## End-to-end decode scenario -/

/-- C16: end-to-end decode scenario.  For the word `0x00000013` (`addi
x0,x0,0`) `dec_rd`, `dec_rs1`, `dec_funct3` and `dec_itype_imm` are all `0`;
for the word `0xFFF00293`, `dec_itype_imm` is `-1`. -/
theorem decode_nop_and_addi_minus_one :
    dec_rd 0x00000013 = 0 ∧ dec_rs1 0x00000013 = 0 ∧ dec_funct3 0x00000013 = 0 ∧
    dec_itype_imm 0x00000013 = 0 ∧ dec_itype_imm 0xFFF00293 = -1 := by
  refine ⟨by decide, by decide, by decide, by decide, by decide⟩

/-! ## Minimum I-type immediate -/

/-- C17, as stated, fails: the word `0x00100000` has only bit 20 set, which is
bit 0 of the immediate, and `dec_itype_imm` returns `1` for it, not `-2048`. -/
theorem dec_itype_imm_0x00100000_is_one :
    dec_itype_imm 0x00100000 = 1 ∧ dec_itype_imm 0x00100000 ≠ -2048 := by
  refine ⟨by decide, by decide⟩

/-- C17, amended: the word with only immediate bit 11 set is `0x80000000`
(word bit 31), and `dec_itype_imm 0x80000000 = -2048`, the minimum
representable I-type immediate: no 32-bit word decodes to a smaller value. -/
theorem dec_itype_imm_minimum :
    wordField 0x80000000 20 12 = 2 ^ 11 ∧ dec_itype_imm 0x80000000 = -2048 ∧
    (∀ w, w < 2 ^ 32 → -2048 ≤ dec_itype_imm w) := by
  refine ⟨by decide, by decide, ?_⟩
  intro w _
  rw [dec_itype_imm_eq]
  unfold signExtend
  split <;> omega

/-! ## Range and alignment of jump and branch offsets -/

/-- C18: for every 32-bit word `w`, `dec_jtype_imm w` is even and lies in
`-2^20 .. 2^20 - 2`, and `dec_btype_imm w` is even and lies in
`-4096 .. 4094`. -/
theorem jump_branch_offset_range (w : Nat) (_hw : w < 2 ^ 32) :
    (dec_jtype_imm w % 2 = 0 ∧ -2 ^ 20 ≤ dec_jtype_imm w ∧ dec_jtype_imm w ≤ 2 ^ 20 - 2) ∧
    (dec_btype_imm w % 2 = 0 ∧ -4096 ≤ dec_btype_imm w ∧ dec_btype_imm w ≤ 4094) := by
  rw [dec_jtype_imm_eq, dec_btype_imm_eq]
  have b31 : wordField w 31 1 < 2 ^ 1 := Nat.mod_lt _ (by norm_num)
  have b7 : wordField w 7 1 < 2 ^ 1 := Nat.mod_lt _ (by norm_num)
  have b25 : wordField w 25 6 < 2 ^ 6 := Nat.mod_lt _ (by norm_num)
  have b8 : wordField w 8 4 < 2 ^ 4 := Nat.mod_lt _ (by norm_num)
  have b12 : wordField w 12 8 < 2 ^ 8 := Nat.mod_lt _ (by norm_num)
  have b20 : wordField w 20 1 < 2 ^ 1 := Nat.mod_lt _ (by norm_num)
  have b21 : wordField w 21 10 < 2 ^ 10 := Nat.mod_lt _ (by norm_num)
  generalize wordField w 31 1 = a31 at *
  generalize wordField w 7 1 = a7 at *
  generalize wordField w 25 6 = a25 at *
  generalize wordField w 8 4 = a8 at *
  generalize wordField w 12 8 = a12 at *
  generalize wordField w 20 1 = a20 at *
  generalize wordField w 21 10 = a21 at *
  unfold signExtend
  refine ⟨?_, ?_⟩ <;> split <;> omega

theorem jump_branch_offset_range_witness :
    dec_jtype_imm 0x80000FFF = -2 ^ 20 ∧ dec_btype_imm 0x7FFFFF7F ≤ 4094 := by
  have h := jump_branch_offset_range 0x80000FFF (by decide)
  have g := jump_branch_offset_range 0x7FFFFF7F (by decide)
  exact ⟨le_antisymm (by decide) h.1.2.1, g.2.2.2⟩

/-! ## Losslessness of the R-type decoding -/

/-- The R-type word of six in-range fields is their positional sum. -/
theorem enc_rtype_eq_sum (opcode rd funct3 rs1 rs2 funct7 : Nat)
    (hop : opcode < 2 ^ 7) (hrd : rd < 2 ^ 5) (hf3 : funct3 < 2 ^ 3) (hrs1 : rs1 < 2 ^ 5)
    (hrs2 : rs2 < 2 ^ 5) :
    enc_rtype opcode rd funct3 rs1 rs2 funct7 = opcode + rd * 2 ^ 7 + funct3 * 2 ^ 12
      + rs1 * 2 ^ 15 + rs2 * 2 ^ 20 + funct7 * 2 ^ 25 := by
  unfold enc_rtype
  simp only [Nat.shiftLeft_eq]
  rw [or_low_high opcode rd 7 hop, or_low_high _ funct3 12 (by omega),
    or_low_high _ rs1 15 (by omega), or_low_high _ rs2 20 (by omega),
    or_low_high _ funct7 25 (by omega)]

/-- A 32-bit word is the positional sum of its six R-type fields. -/
theorem word_eq_rtype_sum (w : Nat) (hw : w < 2 ^ 32) :
    w = wordField w 0 7 + wordField w 7 5 * 2 ^ 7 + wordField w 12 3 * 2 ^ 12
      + wordField w 15 5 * 2 ^ 15 + wordField w 20 5 * 2 ^ 20 + wordField w 25 7 * 2 ^ 25 := by
  unfold wordField
  omega

/-- C19: R-type decoding is lossless.  Every 32-bit word `w` equals
`(w & 0x7F) | dec_rd(w)<<7 | dec_funct3(w)<<12 | dec_rs1(w)<<15 |
dec_rs2(w)<<20 | dec_funct7(w)<<25`; the masks `FR_OPCODE`, `FR_RD`,
`FR_FUNCT3`, `FR_RS1`, `FR_RS2`, `FR_FUNCT7` are pairwise disjoint with union
`0xFFFFFFFF`; and two 32-bit words with the same opcode and the same five
decoded fields are equal. -/
theorem rtype_decoding_lossless (w : Nat) (hw : w < 2 ^ 32) :
    w = (w &&& 0x7F) ||| (dec_rd w <<< 7) ||| (dec_funct3 w <<< 12) ||| (dec_rs1 w <<< 15)
      ||| (dec_rs2 w <<< 20) ||| (dec_funct7 w <<< 25) ∧
    (FR_OPCODE = 0x7F ∧
      FR_OPCODE &&& FR_RD = 0 ∧ FR_OPCODE &&& FR_FUNCT3 = 0 ∧ FR_OPCODE &&& FR_RS1 = 0 ∧
      FR_OPCODE &&& FR_RS2 = 0 ∧ FR_OPCODE &&& FR_FUNCT7 = 0 ∧ FR_RD &&& FR_FUNCT3 = 0 ∧
      FR_RD &&& FR_RS1 = 0 ∧ FR_RD &&& FR_RS2 = 0 ∧ FR_RD &&& FR_FUNCT7 = 0 ∧
      FR_FUNCT3 &&& FR_RS1 = 0 ∧ FR_FUNCT3 &&& FR_RS2 = 0 ∧ FR_FUNCT3 &&& FR_FUNCT7 = 0 ∧
      FR_RS1 &&& FR_RS2 = 0 ∧ FR_RS1 &&& FR_FUNCT7 = 0 ∧ FR_RS2 &&& FR_FUNCT7 = 0 ∧
      FR_OPCODE ||| FR_RD ||| FR_FUNCT3 ||| FR_RS1 ||| FR_RS2 ||| FR_FUNCT7 = 0xFFFFFFFF) ∧
    (∀ w2, w2 < 2 ^ 32 → w &&& FR_OPCODE = w2 &&& FR_OPCODE → dec_rd w = dec_rd w2 →
      dec_funct3 w = dec_funct3 w2 → dec_rs1 w = dec_rs1 w2 → dec_rs2 w = dec_rs2 w2 →
      dec_funct7 w = dec_funct7 w2 → w = w2) := by
  have hop : ∀ x, x &&& FR_OPCODE = wordField x 0 7 := by
    intro x
    rw [and_field x FR_OPCODE 0 7 rfl]
    omega
  refine ⟨?_, ?_, ?_⟩
  · have e : w &&& 0x7F = wordField w 0 7 := hop w
    have h := enc_rtype_eq_sum (wordField w 0 7) (wordField w 7 5) (wordField w 12 3)
      (wordField w 15 5) (wordField w 20 5) (wordField w 25 7)
      (Nat.mod_lt _ (by norm_num)) (Nat.mod_lt _ (by norm_num)) (Nat.mod_lt _ (by norm_num))
      (Nat.mod_lt _ (by norm_num)) (Nat.mod_lt _ (by norm_num))
    unfold enc_rtype at h
    rw [e, dec_rd_eq, dec_funct3_eq, dec_rs1_eq, dec_rs2_eq, dec_funct7_eq, h]
    exact word_eq_rtype_sum w hw
  · decide
  · intro w2 hw2 h0 h1 h2 h3 h4 h5
    rw [hop, hop] at h0
    rw [dec_rd_eq, dec_rd_eq] at h1
    rw [dec_funct3_eq, dec_funct3_eq] at h2
    rw [dec_rs1_eq, dec_rs1_eq] at h3
    rw [dec_rs2_eq, dec_rs2_eq] at h4
    rw [dec_funct7_eq, dec_funct7_eq] at h5
    rw [word_eq_rtype_sum w hw, word_eq_rtype_sum w2 hw2, h0, h1, h2, h3, h4, h5]

theorem rtype_decoding_lossless_witness :
    (0x40B50633 : Nat) = (0x40B50633 &&& 0x7F) ||| (dec_rd 0x40B50633 <<< 7)
      ||| (dec_funct3 0x40B50633 <<< 12) ||| (dec_rs1 0x40B50633 <<< 15)
      ||| (dec_rs2 0x40B50633 <<< 20) ||| (dec_funct7 0x40B50633 <<< 25) :=
  (rtype_decoding_lossless 0x40B50633 (by decide)).1

/-! ## Injectivity of the immediate reassembly -/

/-- C20: immediate reassembly loses no encoded bit.  For all 32-bit words `w1`
and `w2`: if they agree on bits 11:0 and have the same `dec_jtype_imm` they are
equal; if they agree on bits 6:0 and bits 24:12 and have the same
`dec_btype_imm` they are equal; if they agree on bits 6:0 and bits 24:12 and
have the same `dec_stype_imm` they are equal. -/
theorem imm_reassembly_injective (w1 w2 : Nat) (h1 : w1 < 2 ^ 32) (h2 : w2 < 2 ^ 32) :
    (wordField w1 0 12 = wordField w2 0 12 → dec_jtype_imm w1 = dec_jtype_imm w2 → w1 = w2) ∧
    (wordField w1 0 7 = wordField w2 0 7 → wordField w1 12 13 = wordField w2 12 13 →
      dec_btype_imm w1 = dec_btype_imm w2 → w1 = w2) ∧
    (wordField w1 0 7 = wordField w2 0 7 → wordField w1 12 13 = wordField w2 12 13 →
      dec_stype_imm w1 = dec_stype_imm w2 → w1 = w2) := by
  have inj : ∀ n x y : Nat, 0 < n → x < 2 ^ n → y < 2 ^ n →
      signExtend n x = signExtend n y → x = y := by
    intro n x y hn hx hy h
    unfold signExtend at h
    rw [Nat.mod_eq_of_lt hx, Nat.mod_eq_of_lt hy] at h
    have hp : (2 : Int) ^ n = ((2 ^ n : Nat) : Int) := by norm_cast
    have hq : 2 ^ (n - 1) < 2 ^ n := Nat.pow_lt_pow_right (by decide) (by omega)
    generalize 2 ^ (n - 1) = q at *
    rw [hp] at h
    generalize 2 ^ n = p at *
    split at h <;> split at h <;> omega
  refine ⟨?_, ?_, ?_⟩
  · intro hl hd
    rw [dec_jtype_imm_eq, dec_jtype_imm_eq] at hd
    have d1 : w1 = wordField w1 31 1 * 2 ^ 31 + wordField w1 21 10 * 2 ^ 21
        + wordField w1 20 1 * 2 ^ 20 + wordField w1 12 8 * 2 ^ 12 + wordField w1 0 12 := by
      unfold wordField
      omega
    have d2 : w2 = wordField w2 31 1 * 2 ^ 31 + wordField w2 21 10 * 2 ^ 21
        + wordField w2 20 1 * 2 ^ 20 + wordField w2 12 8 * 2 ^ 12 + wordField w2 0 12 := by
      unfold wordField
      omega
    have a1 : wordField w1 31 1 < 2 ^ 1 := Nat.mod_lt _ (by norm_num)
    have a2 : wordField w1 21 10 < 2 ^ 10 := Nat.mod_lt _ (by norm_num)
    have a3 : wordField w1 20 1 < 2 ^ 1 := Nat.mod_lt _ (by norm_num)
    have a4 : wordField w1 12 8 < 2 ^ 8 := Nat.mod_lt _ (by norm_num)
    have b1 : wordField w2 31 1 < 2 ^ 1 := Nat.mod_lt _ (by norm_num)
    have b2 : wordField w2 21 10 < 2 ^ 10 := Nat.mod_lt _ (by norm_num)
    have b3 : wordField w2 20 1 < 2 ^ 1 := Nat.mod_lt _ (by norm_num)
    have b4 : wordField w2 12 8 < 2 ^ 8 := Nat.mod_lt _ (by norm_num)
    have e := inj 21 _ _ (by decide) (by omega) (by omega) hd
    omega
  · intro hl hm hd
    rw [dec_btype_imm_eq, dec_btype_imm_eq] at hd
    have d1 : w1 = wordField w1 31 1 * 2 ^ 31 + wordField w1 25 6 * 2 ^ 25
        + wordField w1 12 13 * 2 ^ 12 + wordField w1 8 4 * 2 ^ 8 + wordField w1 7 1 * 2 ^ 7
        + wordField w1 0 7 := by
      unfold wordField
      omega
    have d2 : w2 = wordField w2 31 1 * 2 ^ 31 + wordField w2 25 6 * 2 ^ 25
        + wordField w2 12 13 * 2 ^ 12 + wordField w2 8 4 * 2 ^ 8 + wordField w2 7 1 * 2 ^ 7
        + wordField w2 0 7 := by
      unfold wordField
      omega
    have a1 : wordField w1 31 1 < 2 ^ 1 := Nat.mod_lt _ (by norm_num)
    have a2 : wordField w1 25 6 < 2 ^ 6 := Nat.mod_lt _ (by norm_num)
    have a3 : wordField w1 8 4 < 2 ^ 4 := Nat.mod_lt _ (by norm_num)
    have a4 : wordField w1 7 1 < 2 ^ 1 := Nat.mod_lt _ (by norm_num)
    have b1 : wordField w2 31 1 < 2 ^ 1 := Nat.mod_lt _ (by norm_num)
    have b2 : wordField w2 25 6 < 2 ^ 6 := Nat.mod_lt _ (by norm_num)
    have b3 : wordField w2 8 4 < 2 ^ 4 := Nat.mod_lt _ (by norm_num)
    have b4 : wordField w2 7 1 < 2 ^ 1 := Nat.mod_lt _ (by norm_num)
    have e := inj 13 _ _ (by decide) (by omega) (by omega) hd
    omega
  · intro hl hm hd
    rw [dec_stype_imm_eq, dec_stype_imm_eq] at hd
    have d1 : w1 = wordField w1 25 7 * 2 ^ 25 + wordField w1 12 13 * 2 ^ 12
        + wordField w1 7 5 * 2 ^ 7 + wordField w1 0 7 := by
      unfold wordField
      omega
    have d2 : w2 = wordField w2 25 7 * 2 ^ 25 + wordField w2 12 13 * 2 ^ 12
        + wordField w2 7 5 * 2 ^ 7 + wordField w2 0 7 := by
      unfold wordField
      omega
    have a1 : wordField w1 25 7 < 2 ^ 7 := Nat.mod_lt _ (by norm_num)
    have a2 : wordField w1 7 5 < 2 ^ 5 := Nat.mod_lt _ (by norm_num)
    have b1 : wordField w2 25 7 < 2 ^ 7 := Nat.mod_lt _ (by norm_num)
    have b2 : wordField w2 7 5 < 2 ^ 5 := Nat.mod_lt _ (by norm_num)
    have e := inj 12 _ _ (by decide) (by omega) (by omega) hd
    omega

theorem imm_reassembly_injective_witness :
    (dec_jtype_imm 0xFFFFF06F = dec_jtype_imm 0xFFFFF06F → (0xFFFFF06F : Nat) = 0xFFFFF06F) ∧
    ¬ dec_btype_imm 0xFE000EE3 = dec_btype_imm 0x7E000EE3 :=
  have h := imm_reassembly_injective 0xFFFFF06F 0xFFFFF06F (by decide) (by decide)
  have g := imm_reassembly_injective 0xFE000EE3 0x7E000EE3 (by decide) (by decide)
  ⟨h.1 (by decide), fun hd => absurd (g.2.1 (by decide) (by decide) hd) (by decide)⟩

end RiscvCore
